import Mathlib

/-!
Verification of the BGP community parser (`commparser.py`).

The development shallowly embeds the Python module `commparser.py`
(class `BGPCommunityParser`).  Modelling conventions:

* Python strings are Lean `String`; character-level work is done on
  `String.data : List Char`.
* JSON candidate dictionaries become Lean structures.  A key that may be
  absent (`"format" in candidate`, `"length" in cfield`, `"asn" in
  candidate`, ...) becomes an `Option` field.
* A field's regex `pattern` is modelled as its whole-string matching
  predicate `String → Bool`.  The source strips a leading `^` and a
  trailing `$` from the stored pattern and then matches
  `re.match("^{}$".format(pattern), value)` (lines 187-192), i.e. it always
  performs an anchored whole-string match of the stripped pattern; the
  predicate is exactly that whole-string match.
* Python `\d` is modelled as an ASCII digit and `$` as end of string
  (the unicode-digit and trailing-newline subtleties of Python's `re`
  are not modelled).
* Statements that can raise (`int(...)` on a malformed numeral, tuple
  unpacking of `str.split`) are modelled in `Except PyErr`; an exception
  is `.error .valueError`.
* Machine integers do not occur: all the Python ints involved are
  unbounded non-negative ints, modelled as `Nat`.
* `load_source`'s network/file fetch (lines 37-41) is out-of-scope I/O:
  the function is modelled from the decoded document onwards (the three
  list appends of lines 43-45).  The `sources` bookkeeping list is used
  only by `__str__` and is omitted.
-/

namespace CommParser

/-- One exception value; both `ValueError` sources of the Python code
(`int()` on a malformed numeral, and tuple unpacking of `split`)
are collapsed into it. -/
inductive PyErr where
  | valueError
deriving DecidableEq, Repr

/-- A field descriptor, one element of a `fields` list of a candidate
JSON definition.  `pattern` is the whole-string matching predicate of the
field's regex (see the module comment). -/
structure FieldSpec where
  name : String
  pattern : String → Bool
  length : Option Nat
  description : Option String

/-- A `localadmin` / `localdatapart1` / `localdatapart2` JSON object:
an optional `format` string and an ordered list of fields. -/
structure LocalPart where
  format : Option String
  fields : List FieldSpec

/-- A regular (RFC1997) community candidate JSON definition. -/
structure RegularCand where
  globaladmin : Nat
  localadmin : LocalPart

/-- A large (RFC8092) community candidate JSON definition. -/
structure LargeCand where
  globaladmin : Nat
  localdatapart1 : LocalPart
  localdatapart2 : LocalPart

/-- An extended (RFC4360) community candidate JSON definition.  The code
treats `asn` and `asn4` as independently optional keys. -/
structure ExtendedCand where
  type : Nat
  subtype : Nat
  asn : Option Nat
  asn4 : Option Nat
  localadmin : LocalPart

/-- The three candidate lists of one decoded
`draft-ietf-grow-yang-bgp-communities` document (the value of
`jdata["draft-ietf-grow-yang-bgp-communities:bgp-communities"]`). -/
structure CommunityDoc where
  regular : List RegularCand
  large : List LargeCand
  extended : List ExtendedCand

/-- The `BGPCommunityParser` object state: the three per-kind candidate
lists (lines 18-20). -/
structure BGPCommunityParser where
  comm_regular : List RegularCand
  comm_large : List LargeCand
  comm_extended : List ExtendedCand

/-- A freshly constructed parser with no sources loaded
(`BGPCommunityParser()`). -/
def emptyParser : BGPCommunityParser :=
  { comm_regular := [], comm_large := [], comm_extended := [] }

/-- `load_source` (lines 32-46) from the decoded document onwards: the
three candidate lists of the document are appended to the parser's
per-kind lists. -/
def load_source (p : BGPCommunityParser) (jdata : CommunityDoc) : BGPCommunityParser :=
  { comm_regular := p.comm_regular ++ jdata.regular
    comm_large := p.comm_large ++ jdata.large
    comm_extended := p.comm_extended ++ jdata.extended }

/-! ### Decimal and binary numerals -/

/-- The decimal digit character of a value below ten (values ten and
above never reach the default arm: the function is only applied to
`n % 10`). -/
def decDigitChar : Nat → Char
  | 0 => '0' | 1 => '1' | 2 => '2' | 3 => '3' | 4 => '4'
  | 5 => '5' | 6 => '6' | 7 => '7' | 8 => '8' | _ => '9'

/-- Fuel-driven core of decimal printing: prepends the decimal digits of
`n` (most significant first) to `acc`.  The fuel is only there to make
the recursion structural; `natToDecString` always supplies enough. -/
def decCore : Nat → Nat → List Char → List Char
  | 0, _, acc => acc
  | fuel + 1, n, acc =>
    let acc' := decDigitChar (n % 10) :: acc
    if n / 10 = 0 then acc' else decCore fuel (n / 10) acc'

/-- Python `str()` applied to a non-negative int: its decimal numeral
with no sign and no leading zeros. -/
def natToDecString (n : Nat) : String :=
  String.mk (decCore (n + 1) n [])

/-- The numeric value of a decimal digit string (the value that Python
`int()` returns on it). -/
def decStrToNat (s : String) : Nat :=
  s.data.foldl (fun a c => a * 10 + (c.toNat - 48)) 0

/-- `true` iff the character list is non-empty and all ASCII digits,
i.e. iff the string it spells matches `^\d+$`. -/
def allDigits1 (cs : List Char) : Bool :=
  !cs.isEmpty && cs.all Char.isDigit

/-- Python `int(s)` on a base-10 numeral, modelled on digit-only
strings (every call site of the parser hands it a digit-only string;
Python's additional tolerance for signs, surrounding whitespace and
underscores is not modelled). -/
def pyIntDec? (s : String) : Option Nat :=
  if allDigits1 s.data then some (decStrToNat s) else none

/-- Hexadecimal digit test, as accepted by Python `int(s, 16)`. -/
def isHexDigitChar (c : Char) : Bool :=
  c.isDigit || ('a' ≤ c && c ≤ 'f') || ('A' ≤ c && c ≤ 'F')

/-- The numeric value of one hexadecimal digit character. -/
def hexDigitVal (c : Char) : Nat :=
  if c.isDigit then c.toNat - 48
  else if 'a' ≤ c then c.toNat - 87
  else c.toNat - 55

/-- Python `int(s, 16)`: an optional `0x`/`0X` prefix followed by one or
more hexadecimal digits (signs/whitespace again not modelled; the parser
only hands it strings shaped `0x\d\d`). -/
def pyIntHex? (s : String) : Option Nat :=
  let cs :=
    match s.data with
    | c0 :: c1 :: rest =>
      if c0 = '0' && (c1 = 'x' || c1 = 'X') then rest else s.data
    | _ => s.data
  if cs.isEmpty then none
  else if cs.all isHexDigitChar then
    some (cs.foldl (fun a c => a * 16 + hexDigitVal c) 0)
  else none

/-- Fuel-driven core of binary printing: prepends the binary digits of
`n` (most significant first) to `acc`; mirrors `decCore` in base 2. -/
def binCore : Nat → Nat → List Char → List Char
  | 0, _, acc => acc
  | fuel + 1, n, acc =>
    let acc' := (if n % 2 = 1 then '1' else '0') :: acc
    if n / 2 = 0 then acc' else binCore fuel (n / 2) acc'

/-- The binary numeral of `n` with no leading zeros (Python
`f"{n:b}"`; `0` prints as `"0"`). -/
def natToBin (n : Nat) : List Char :=
  binCore (n + 1) n []

/-- `_decimal2bits` (lines 253-257): `f"{int(decimal):0{length}b}"`.
The numeral is parsed as a base-10 int (`.error` when that raises) and
printed in binary, left-padded with `0` to at least `length` characters
and never truncated. -/
def _decimal2bits (decimal : String) (length : Nat) : Option String :=
  (pyIntDec? decimal).map fun v =>
    String.mk (List.replicate (length - (natToBin v).length) '0' ++ natToBin v)

/-! ### Python `str.split(":", maxsplit)` -/

/-- Python `s.split(":")` on the character list: the groups between the
colons, in order; never drops empty groups, and the empty string yields
one empty group. -/
def splitChars : List Char → List (List Char)
  | [] => [[]]
  | c :: cs =>
    let r := splitChars cs
    if c = ':' then [] :: r
    else
      match r with
      | g :: gs => (c :: g) :: gs
      | [] => [[c]]

/-- Re-joins groups with `':'` (Python `":".join`), used to rebuild the
un-split remainder when `maxsplit` caps the number of splits. -/
def joinColon : List (List Char) → List Char
  | [] => []
  | [g] => g
  | g :: gs => g ++ ':' :: joinColon gs

/-- Python `s.split(":", maxsplit)`: at most `maxsplit` splits, the
remainder (colons included) kept as the last element. -/
def pySplit (s : String) (maxsplit : Nat) : List String :=
  let parts := splitChars s.data
  if parts.length ≤ maxsplit + 1 then parts.map String.mk
  else (parts.take maxsplit).map String.mk
    ++ [String.mk (joinColon (parts.drop maxsplit))]

/-! ### The three classification regexes of `parse_community` -/

/-- `re.match(r"^\d+:\d+$", s)` (line 60): exactly two colon-separated
groups, each one or more digits.  (Digits exclude `':'`, so the regex
holds exactly when `split(":")` yields two such groups.) -/
def reRegularShape (s : String) : Bool :=
  match splitChars s.data with
  | [a, b] => allDigits1 a && allDigits1 b
  | _ => false

/-- `re.match(r"^\d+:\d+:\d+$", s)` (line 62): exactly three
colon-separated all-digit groups. -/
def reLargeShape (s : String) : Bool :=
  match splitChars s.data with
  | [a, b, c] => allDigits1 a && allDigits1 b && allDigits1 c
  | _ => false

/-- One `0x\d\d` group of the extended-community regex: literally `0`,
`x`, then two decimal digits (note: decimal, not hexadecimal). -/
def isHexOctetDD : List Char → Bool
  | [c0, c1, d1, d2] => c0 == '0' && c1 == 'x' && d1.isDigit && d2.isDigit
  | _ => false

/-- `re.match(r"^0x\d\d:0x\d\d:\d+:\d+$", s)` (line 64): four
colon-separated groups, the first two shaped `0x\d\d`, the last two one
or more digits. -/
def reExtendedShape (s : String) : Bool :=
  match splitChars s.data with
  | [t, st, a, c] => isHexOctetDD t && isHexOctetDD st && allDigits1 a && allDigits1 c
  | _ => false

/-! ### Field matching and extraction -/

/-- Python slice `cs[pos : pos + len]` on a character list: clamping,
never out of bounds. -/
def pySlice (cs : List Char) (pos len : Nat) : List Char :=
  (cs.drop pos).take len

/-- The loop body of `_try_candidate_fields` (lines 180-198), carrying
the cursor `pos`.  A field with `length` is tested against
`content[pos : pos + length]` and advances the cursor; a field without
`length` is tested against the WHOLE content string (`value = content`,
line 185) and leaves the cursor unchanged. -/
def matchFieldsAux (content : List Char) (pos : Nat) : List FieldSpec → Bool
  | [] => true
  | cfield :: rest =>
    let value :=
      match cfield.length with
      | some len => String.mk (pySlice content pos len)
      | none => String.mk content
    if cfield.pattern value then
      matchFieldsAux content
        (match cfield.length with | some len => pos + len | none => pos) rest
    else false

/-- `_try_candidate_fields` (lines 176-198): test the ordered fields of
one candidate against the content string, short-circuiting on the first
failing pattern. -/
def _try_candidate_fields (content : String) (cfields : List FieldSpec) : Bool :=
  matchFieldsAux content.data 0 cfields

/-- The loop of `_candidate2fields` (lines 209-215): slice
`contentbits[pos : pos + length]` for each field, where a missing
`length` stands for `len(contentbits)` (so the slice is the whole
remainder), and the cursor always advances by `length`. -/
def extractFields (contentbits : List Char) (pos : Nat) : List FieldSpec → List String
  | [] => []
  | field :: rest =>
    let length := field.length.getD contentbits.length
    String.mk (pySlice contentbits pos length)
      :: extractFields contentbits (pos + length) rest

/-- `_candidate2fields` (lines 200-216): re-derive the per-field values
of a matched candidate from the content string.  The binary transform
here is ALWAYS width 16 (line 208).  The result is the list of values in
field order (the source builds the dict `{fid: value}` over
`enumerate(fields)`, i.e. exactly this list by position). -/
def _candidate2fields (contentbits : String) (clocaladmin : LocalPart) :
    Option (List String) :=
  match
    (if clocaladmin.format = some "binary"
     then _decimal2bits contentbits 16 else some contentbits) with
  | none => none
  | some cb => some (extractFields cb.data 0 clocaladmin.fields)

/-- `_candidate2fields_large` (lines 218-251): both parts are
independently binary-transformed with width 32 when their part declares
`format="binary"`, then sliced from position 0 each.  The source's dict
keys `0..n1-1` and `n1..n1+n2-1` are modelled as the pair of per-part
value lists. -/
def _candidate2fields_large (contentbits1 contentbits2 : String)
    (clocaldatapart1 clocaldatapart2 : LocalPart) :
    Option (List String × List String) :=
  match
    (if clocaldatapart1.format = some "binary"
     then _decimal2bits contentbits1 32 else some contentbits1) with
  | none => none
  | some cb1 =>
    match
      (if clocaldatapart2.format = some "binary"
       then _decimal2bits contentbits2 32 else some contentbits2) with
    | none => none
    | some cb2 =>
      some (extractFields cb1.data 0 clocaldatapart1.fields,
            extractFields cb2.data 0 clocaldatapart2.fields)

/-! ### Candidate selection -/

/-- `_try_candidates_regular` (lines 111-123).  Note the source
REASSIGNS the loop variable `content` when a candidate with matching
`globaladmin` declares `format="binary"` (line 120), so the transformed
content is what later candidates are tested against; the recursion
below carries that mutated string. -/
def _try_candidates_regular (asn : String) :
    String → List RegularCand → Except PyErr (Option RegularCand)
  | _, [] => .ok none
  | content, candidate :: rest =>
    if asn ≠ natToDecString candidate.globaladmin then
      _try_candidates_regular asn content rest
    else
      match
        (if candidate.localadmin.format = some "binary"
         then _decimal2bits content 16 else some content) with
      | none => .error .valueError
      | some content' =>
        if _try_candidate_fields content' candidate.localadmin.fields then
          .ok (some candidate)
        else _try_candidates_regular asn content' rest

/-- `_try_candidates_large` (lines 125-144).  Both data parts are
conditionally binary-transformed with width 32; the source reassigns
`content1`/`content2` exactly as in the regular case, and the candidate
is accepted only when both parts field-match. -/
def _try_candidates_large (asn : String) :
    String → String → List LargeCand → Except PyErr (Option LargeCand)
  | _, _, [] => .ok none
  | content1, content2, candidate :: rest =>
    if asn ≠ natToDecString candidate.globaladmin then
      _try_candidates_large asn content1 content2 rest
    else
      match
        (if candidate.localdatapart1.format = some "binary"
         then _decimal2bits content1 32 else some content1) with
      | none => .error .valueError
      | some c1 =>
        match
          (if candidate.localdatapart2.format = some "binary"
           then _decimal2bits content2 32 else some content2) with
        | none => .error .valueError
        | some c2 =>
          if _try_candidate_fields c1 candidate.localdatapart1.fields
              && _try_candidate_fields c2 candidate.localdatapart2.fields then
            .ok (some candidate)
          else _try_candidates_large asn c1 c2 rest

/-- The administrator check of `_try_candidates_extended`
(lines 156-163): `asn` is consulted first, `asn4` only when `asn` is
absent; `some b` means the check ran with outcome `b`, `none` means
neither key is present (the source then `continue`s). -/
def extAdminOk (asn : String) (candidate : ExtendedCand) : Option Bool :=
  match candidate.asn with
  | some a => some (asn = natToDecString a : Bool)
  | none =>
    match candidate.asn4 with
    | some a4 => some (asn = natToDecString a4 : Bool)
    | none => none

/-- The binary transform of `_try_candidates_extended` (lines 164-169):
when the candidate's local admin declares `format="binary"`, the content
is converted with width 16 when the candidate has an `asn4` key and
width 32 otherwise; without the declaration the content is unchanged.
This is exactly the `contentstring` that line 170 hands to
`_try_candidate_fields`. -/
def extContentString (candidate : ExtendedCand) (content : String) : Option String :=
  if candidate.localadmin.format = some "binary" then
    if candidate.asn4.isSome then _decimal2bits content 16
    else _decimal2bits content 32
  else some content

/-- `_try_candidates_extended` (lines 146-174).  `contentstring` is
rebound to the pristine `content` at every iteration (line 151), so
unlike the regular/large selectors no transform leaks to later
candidates. -/
def _try_candidates_extended (extype exsubtype asn content : String) :
    List ExtendedCand → Except PyErr (Option ExtendedCand)
  | [] => .ok none
  | candidate :: rest =>
    match pyIntHex? extype with
    | none => .error .valueError
    | some tv =>
      if tv ≠ candidate.type then
        _try_candidates_extended extype exsubtype asn content rest
      else
        match pyIntHex? exsubtype with
        | none => .error .valueError
        | some sv =>
          if sv ≠ candidate.subtype then
            _try_candidates_extended extype exsubtype asn content rest
          else
            match extAdminOk asn candidate with
            | none =>
              _try_candidates_extended extype exsubtype asn content rest
            | some false =>
              _try_candidates_extended extype exsubtype asn content rest
            | some true =>
              match extContentString candidate content with
              | none => .error .valueError
              | some contentstring =>
                if _try_candidate_fields contentstring candidate.localadmin.fields then
                  .ok (some candidate)
                else _try_candidates_extended extype exsubtype asn content rest

/-! ### Rendering (`_print_match`, lines 259-294) -/

/-- One `name=value` item of an output section: the field's literal
`description` when present, else the decoded value at the field's
position.  `none` models the `KeyError` the source would hit when
`fieldvals` has no entry for a field index. -/
def renderFields : List FieldSpec → List String → Option (List String)
  | [], _ => some []
  | _ :: _, [] => none
  | field :: fs, v :: vs =>
    (renderFields fs vs).map fun rest =>
      (match field.description with
       | some d => field.name ++ "=" ++ d
       | none => field.name ++ "=" ++ v) :: rest

/-- `_print_match` for a regular candidate: the administrator is its
`globaladmin`, one comma-joined section. -/
def _print_match_regular (candidate : RegularCand) (fieldvals : List String) :
    Option String :=
  (renderFields candidate.localadmin.fields fieldvals).map fun items =>
    natToDecString candidate.globaladmin ++ ":" ++ String.intercalate "," items

/-- `_print_match` for an extended candidate: the `for attr in
("globaladmin", "asn", "asn4")` loop (lines 265-267) leaves `asn` bound
to the LAST present attribute, so `asn4` wins over `asn`; `none` models
the `NameError` when neither key exists (selection never lets that
happen). -/
def _print_match_extended (candidate : ExtendedCand) (fieldvals : List String) :
    Option String :=
  match (match candidate.asn4 with | some a => some a | none => candidate.asn) with
  | none => none
  | some adm =>
    (renderFields candidate.localadmin.fields fieldvals).map fun items =>
      natToDecString adm ++ ":" ++ String.intercalate "," items

/-- `_print_match` for a large candidate: administrator `globaladmin`,
two comma-joined sections joined with `':'`. -/
def _print_match_large (candidate : LargeCand)
    (fieldvals1 fieldvals2 : List String) : Option String :=
  match renderFields candidate.localdatapart1.fields fieldvals1,
      renderFields candidate.localdatapart2.fields fieldvals2 with
  | some items1, some items2 =>
    some (natToDecString candidate.globaladmin ++ ":"
      ++ String.intercalate "," items1 ++ ":" ++ String.intercalate "," items2)
  | _, _ => none

/-! ### The parse entry points (lines 56-109) -/

/-- `parse_regular_community` (lines 68-79).  `asn, content =
community.split(":", 1)` raises when the split yields fewer than two
parts; `found` being `False` yields `None` (here `.ok none`). -/
def parse_regular_community (p : BGPCommunityParser) (community : String) :
    Except PyErr (Option String) :=
  match pySplit community 1 with
  | [asn, content] =>
    match _try_candidates_regular asn content p.comm_regular with
    | .error e => .error e
    | .ok none => .ok none
    | .ok (some found) =>
      match _candidate2fields content found.localadmin with
      | none => .error .valueError
      | some fieldvals =>
        match _print_match_regular found fieldvals with
        | none => .error .valueError
        | some out => .ok (some out)
  | _ => .error .valueError

/-- `parse_large_community` (lines 81-94). -/
def parse_large_community (p : BGPCommunityParser) (community : String) :
    Except PyErr (Option String) :=
  match pySplit community 2 with
  | [asn, content1, content2] =>
    match _try_candidates_large asn content1 content2 p.comm_large with
    | .error e => .error e
    | .ok none => .ok none
    | .ok (some found) =>
      match _candidate2fields_large content1 content2
          found.localdatapart1 found.localdatapart2 with
      | none => .error .valueError
      | some (fieldvals1, fieldvals2) =>
        match _print_match_large found fieldvals1 fieldvals2 with
        | none => .error .valueError
        | some out => .ok (some out)
  | _ => .error .valueError

/-- `parse_extended_community` (lines 96-109). -/
def parse_extended_community (p : BGPCommunityParser) (community : String) :
    Except PyErr (Option String) :=
  match pySplit community 3 with
  | [extype, exsubtype, asn, content] =>
    match _try_candidates_extended extype exsubtype asn content p.comm_extended with
    | .error e => .error e
    | .ok none => .ok none
    | .ok (some found) =>
      match _candidate2fields content found.localadmin with
      | none => .error .valueError
      | some fieldvals =>
        match _print_match_extended found fieldvals with
        | none => .error .valueError
        | some out => .ok (some out)
  | _ => .error .valueError

/-- `parse_community` (lines 56-66): classify the input by the three
shape regexes, dispatch to the kind-specific parser, or return `None`
(`.ok none`). -/
def parse_community (p : BGPCommunityParser) (community : String) :
    Except PyErr (Option String) :=
  if reRegularShape community then parse_regular_community p community
  else if reLargeShape community then parse_large_community p community
  else if reExtendedShape community then parse_extended_community p community
  else .ok none

/-- `true` iff the computation returned normally (did not raise). -/
def isOkE (r : Except PyErr (Option String)) : Bool :=
  match r with
  | .ok _ => true
  | .error _ => false

/-! ### The field matcher as the specification words it

For comparison with `_try_candidate_fields`: the specification says a
field without `length` is tested against the remaining segment
`content[pos:]`. -/

/-- The matcher as the specification describes it: identical to
`matchFieldsAux` except that a field without `length` is tested against
the remainder `content[pos:]` instead of the whole content string. -/
def matchFieldsRemainder (content : List Char) (pos : Nat) : List FieldSpec → Bool
  | [] => true
  | cfield :: rest =>
    let value :=
      match cfield.length with
      | some len => String.mk (pySlice content pos len)
      | none => String.mk (content.drop pos)
    if cfield.pattern value then
      matchFieldsRemainder content
        (match cfield.length with | some len => pos + len | none => pos) rest
    else false

/-! ### Concrete candidates and registries used in the claim analyses -/

/-- A field whose regex is the literal `^5$`. -/
def fLit5 : FieldSpec :=
  { name := "f", pattern := fun s => s = "5", length := none, description := none }

/-- A regular candidate without `format`, matching local admin `5`. -/
def candPlain5 : RegularCand :=
  { globaladmin := 1, localadmin := { format := none, fields := [fLit5] } }

/-- A field whose regex is the literal `^9$` (matches no binary string). -/
def fLit9 : FieldSpec :=
  { name := "g", pattern := fun s => s = "9", length := none, description := none }

/-- A regular candidate with `format="binary"` whose field never
matches a binary digit string. -/
def candBin9 : RegularCand :=
  { globaladmin := 1, localadmin := { format := some "binary", fields := [fLit9] } }

/-- Registry holding only `candPlain5`. -/
def parserPlain : BGPCommunityParser :=
  { emptyParser with comm_regular := [candPlain5] }

/-- Registry holding `candBin9` before `candPlain5`. -/
def parserBinThenPlain : BGPCommunityParser :=
  { emptyParser with comm_regular := [candBin9, candPlain5] }

/-- A field whose regex is the literal 16-character
`^0000000001100101$`, the width-16 binary string of 101 — and 101 is
the decimal reading of the width-16 binary string of 5. -/
def fDoubleBits : FieldSpec :=
  { name := "f", pattern := fun s => s = "0000000001100101"
    length := none, description := none }

/-- A regular binary candidate whose field matches only the
DOUBLY-transformed content of `5`. -/
def candDoubleBits : RegularCand :=
  { globaladmin := 1
    localadmin := { format := some "binary", fields := [fDoubleBits] } }

/-- A specification document holding the single regular candidate
`candDoubleBits`. -/
def docDouble : CommunityDoc :=
  { regular := [candDoubleBits], large := [], extended := [] }

/-- A field whose regex is the literal width-16 binary string of 5. -/
def fBits16Of5 : FieldSpec :=
  { name := "f", pattern := fun s => s = "0000000000000101"
    length := none, description := none }

/-- A field whose regex is the literal width-32 binary string of 5. -/
def fBits32Of5 : FieldSpec :=
  { name := "f", pattern := fun s => s = "00000000000000000000000000000101"
    length := none, description := none }

/-- An extended candidate declaring `asn4` (no `asn`) with a binary
local admin whose field matches exactly the width-16 binary of 5. -/
def candAsn4Bin : ExtendedCand :=
  { type := 2, subtype := 2, asn := none, asn4 := some 1
    localadmin := { format := some "binary", fields := [fBits16Of5] } }

/-- An extended candidate declaring `asn` (no `asn4`) with a binary
local admin whose field matches exactly the width-32 binary of 5. -/
def candAsnBin : ExtendedCand :=
  { type := 2, subtype := 2, asn := some 1, asn4 := none
    localadmin := { format := some "binary", fields := [fBits32Of5] } }

/-- Registry holding only the extended candidate `candAsnBin`. -/
def parserAsnBin : BGPCommunityParser :=
  { emptyParser with comm_extended := [candAsnBin] }

/-- A one-character field whose regex is the literal `^0$`. -/
def fLen1Zero : FieldSpec :=
  { name := "a", pattern := fun s => s = "0", length := some 1, description := none }

/-- An unlengthed field whose regex is the literal `^5$`. -/
def fRest5 : FieldSpec :=
  { name := "b", pattern := fun s => s = "5", length := none, description := none }

/-- A field whose regex is the literal `^2$`. -/
def fLit2 : FieldSpec :=
  { name := "f", pattern := fun s => s = "2", length := none, description := none }

/-- An extended candidate for type `0xAB` (171), subtype `0x01`,
administrator `asn = 1`, plain local admin matching content `2`. -/
def candHexType : ExtendedCand :=
  { type := 171, subtype := 1, asn := some 1, asn4 := none
    localadmin := { format := none, fields := [fLit2] } }

/-- Registry holding only the extended candidate `candHexType`. -/
def parserHexType : BGPCommunityParser :=
  { emptyParser with comm_extended := [candHexType] }

/-- An extended candidate declaring only the 16-bit administrator
`asn = 65000`, with an always-matching (empty) field list. -/
def candAsn16 : ExtendedCand :=
  { type := 0, subtype := 0, asn := some 65000, asn4 := none
    localadmin := { format := none, fields := [] } }

/-! ## Lemmas about the numeral primitives -/

theorem decDigitChar_val {d : Nat} (hd : d < 10) : (decDigitChar d).toNat - 48 = d := by
  rcases d with _ | _ | _ | _ | _ | _ | _ | _ | _ | _ | d <;> first | rfl | omega

theorem decCore_append (fuel : Nat) :
    ∀ n acc, decCore fuel n acc = decCore fuel n [] ++ acc := by
  induction fuel with
  | zero => intro n acc; simp [decCore]
  | succ fuel ih =>
    intro n acc
    simp only [decCore]
    by_cases h : n / 10 = 0
    · simp [h]
    · simp only [h, if_neg, ite_false]
      rw [ih (n / 10) (decDigitChar (n % 10) :: acc),
        ih (n / 10) [decDigitChar (n % 10)]]
      simp

theorem decCore_val (fuel : Nat) :
    ∀ n, n < 10 ^ fuel → ∀ a,
      List.foldl (fun x c => x * 10 + (c.toNat - 48)) a (decCore fuel n []) =
        a * 10 ^ (decCore fuel n []).length + n := by
  induction fuel with
  | zero =>
    intro n hn a
    have : n = 0 := by simpa using hn
    subst this
    simp [decCore]
  | succ fuel ih =>
    intro n hn a
    by_cases h : n / 10 = 0
    · have hn10 : n < 10 := by omega
      have hmod : n % 10 = n := Nat.mod_eq_of_lt hn10
      simp [decCore, h, hmod, decDigitChar_val hn10]
    · have hdiv : n / 10 < 10 ^ fuel := by
        have h10 : (10 : Nat) ^ (fuel + 1) = 10 ^ fuel * 10 := by ring
        exact Nat.div_lt_of_lt_mul (by omega)
      have hstep : decCore (fuel + 1) n [] =
          decCore fuel (n / 10) [] ++ [decDigitChar (n % 10)] := by
        simp only [decCore, h, ite_false]
        exact decCore_append fuel (n / 10) [decDigitChar (n % 10)]
      rw [hstep, List.foldl_append, ih (n / 10) hdiv a]
      have hv : (decDigitChar (n % 10)).toNat - 48 = n % 10 :=
        decDigitChar_val (Nat.mod_lt n (by omega))
      simp only [List.foldl, hv, List.length_append, List.length_cons,
        List.length_nil]
      have hrecon : n / 10 * 10 + n % 10 = n := by omega
      ring_nf
      generalize a * 10 ^ (decCore fuel (n / 10) []).length * 10 = A
      omega

theorem decStrToNat_natToDecString (n : Nat) :
    decStrToNat (natToDecString n) = n := by
  have hlt : n < 10 ^ (n + 1) := by
    calc n < 2 ^ n := Nat.lt_two_pow n
    _ ≤ 10 ^ n := Nat.pow_le_pow_left (by omega) n
    _ ≤ 10 ^ (n + 1) := Nat.pow_le_pow_right (by omega) (by omega)
  have := decCore_val (n + 1) n hlt 0
  simpa [decStrToNat, natToDecString] using this

/-! ## Lemmas about `splitChars` and the shape regexes -/

theorem splitChars_ne_nil (cs : List Char) : splitChars cs ≠ [] := by
  induction cs with
  | nil => simp [splitChars]
  | cons c cs ih =>
    simp only [splitChars]
    split
    · simp
    · split <;> simp

theorem splitChars_length (cs : List Char) :
    (splitChars cs).length = cs.count ':' + 1 := by
  induction cs with
  | nil => simp [splitChars]
  | cons c cs ih =>
    simp only [splitChars]
    by_cases h : c = ':'
    · subst h
      simp [List.count_cons, ih]
    · simp only [if_neg h]
      rcases hr : splitChars cs with _ | ⟨g, gs⟩
      · exact absurd hr (splitChars_ne_nil cs)
      · rw [hr] at ih
        simp only [List.length_cons] at ih ⊢
        rw [List.count_cons]
        simp [h, ih]

theorem pySplit_of_le (s : String) (k : Nat)
    (h : (splitChars s.data).length ≤ k + 1) :
    pySplit s k = (splitChars s.data).map String.mk := by
  simp [pySplit, h]

theorem reRegularShape_split (s : String) (h : reRegularShape s = true) :
    (splitChars s.data).length = 2 := by
  unfold reRegularShape at h
  rcases hp : splitChars s.data with _ | ⟨a, _ | ⟨b, _ | ⟨c, r⟩⟩⟩ <;>
    rw [hp] at h <;> simp_all

theorem reLargeShape_split (s : String) (h : reLargeShape s = true) :
    (splitChars s.data).length = 3 := by
  unfold reLargeShape at h
  rcases hp : splitChars s.data with _ | ⟨a, _ | ⟨b, _ | ⟨c, _ | ⟨d, r⟩⟩⟩⟩ <;>
    rw [hp] at h <;> simp_all

theorem reExtendedShape_split (s : String) (h : reExtendedShape s = true) :
    (splitChars s.data).length = 4 := by
  unfold reExtendedShape at h
  rcases hp : splitChars s.data with _ | ⟨a, _ | ⟨b, _ | ⟨c, _ | ⟨d, _ | ⟨e, r⟩⟩⟩⟩⟩ <;>
    rw [hp] at h <;> simp_all

/-! ## Digit-string invariants of the binary transform -/

theorem allDigits1_iff (cs : List Char) :
    allDigits1 cs = true ↔ cs ≠ [] ∧ ∀ c ∈ cs, c.isDigit = true := by
  simp [allDigits1, List.all_eq_true, List.isEmpty_iff]

theorem binCore_digits (fuel : Nat) :
    ∀ n acc, (∀ c ∈ acc, c.isDigit = true) →
      ∀ c ∈ binCore fuel n acc, c.isDigit = true := by
  induction fuel with
  | zero => intro n acc hacc; simpa [binCore] using hacc
  | succ fuel ih =>
    intro n acc hacc
    simp only [binCore]
    have hacc' : ∀ c ∈ ((if n % 2 = 1 then '1' else '0') :: acc),
        c.isDigit = true := by
      intro c hc
      rcases List.mem_cons.mp hc with h | h
      · subst h; split <;> rfl
      · exact hacc c h
    split
    · exact hacc'
    · exact ih (n / 2) _ hacc'

theorem binCore_length (fuel : Nat) :
    ∀ n acc, acc.length ≤ (binCore fuel n acc).length := by
  induction fuel with
  | zero => intro n acc; simp [binCore]
  | succ fuel ih =>
    intro n acc
    simp only [binCore]
    split
    · simp
    · have h := ih (n / 2) ((if n % 2 = 1 then '1' else '0') :: acc)
      simp only [List.length_cons] at h
      omega

theorem natToBin_length_pos (n : Nat) : 0 < (natToBin n).length := by
  unfold natToBin
  simp only [binCore]
  split
  · simp
  · have h := binCore_length n (n / 2) [if n % 2 = 1 then '1' else '0']
    simp only [List.length_singleton] at h
    omega

theorem natToBin_digits (n : Nat) : ∀ c ∈ natToBin n, c.isDigit = true :=
  binCore_digits (n + 1) n [] (by simp)

theorem decimal2bits_some (s : String) (w : Nat) (hs : allDigits1 s.data = true) :
    _decimal2bits s w =
      some (String.mk (List.replicate (w - (natToBin (decStrToNat s)).length) '0'
        ++ natToBin (decStrToNat s))) := by
  simp [_decimal2bits, pyIntDec?, hs]

theorem decimal2bits_digits (s : String) (w : Nat)
    (hs : allDigits1 s.data = true) :
    ∃ t, _decimal2bits s w = some t ∧ allDigits1 t.data = true := by
  refine ⟨_, decimal2bits_some s w hs, ?_⟩
  have hpos := natToBin_length_pos (decStrToNat s)
  have hdig := natToBin_digits (decStrToNat s)
  rw [allDigits1_iff]
  constructor
  · intro h
    have := congrArg List.length h
    simp only [List.length_append, List.length_replicate, List.length_nil] at this
    omega
  · intro c hc
    rcases List.mem_append.mp hc with h | h
    · rw [List.eq_of_mem_replicate h]; rfl
    · exact hdig c h

/-! ## Totality machinery: the parse pipeline never raises on
shape-matched input -/

theorem digit_isHex (c : Char) (h : c.isDigit = true) :
    isHexDigitChar c = true := by
  simp [isHexDigitChar, h]

theorem hexOctet_parse (t : List Char) (h : isHexOctetDD t = true) :
    (pyIntHex? (String.mk t)).isSome = true := by
  rcases t with _ | ⟨c0, _ | ⟨c1, _ | ⟨d1, _ | ⟨d2, _ | ⟨e, r⟩⟩⟩⟩⟩ <;>
    simp only [isHexOctetDD, Bool.and_eq_true, beq_iff_eq] at h <;>
    try exact Bool.noConfusion h
  obtain ⟨⟨⟨h0, h1⟩, hd1⟩, hd2⟩ := h
  subst h0; subst h1
  simp [pyIntHex?, digit_isHex _ hd1, digit_isHex _ hd2]

theorem try_regular_ok (asn : String) (cands : List RegularCand) :
    ∀ content : String, allDigits1 content.data = true →
      ∃ r, _try_candidates_regular asn content cands = .ok r := by
  induction cands with
  | nil => intro content _; exact ⟨none, rfl⟩
  | cons candidate rest ih =>
    intro content h
    rw [_try_candidates_regular]
    split
    · exact ih content h
    · have hsome : ∃ t, (if candidate.localadmin.format = some "binary"
          then _decimal2bits content 16 else some content) = some t
          ∧ allDigits1 t.data = true := by
        split
        · exact decimal2bits_digits content 16 h
        · exact ⟨content, rfl, h⟩
      obtain ⟨t, ht, htd⟩ := hsome
      simp only [ht]
      split
      · exact ⟨some candidate, rfl⟩
      · exact ih t htd

theorem try_large_ok (asn : String) (cands : List LargeCand) :
    ∀ content1 content2 : String,
      allDigits1 content1.data = true → allDigits1 content2.data = true →
      ∃ r, _try_candidates_large asn content1 content2 cands = .ok r := by
  induction cands with
  | nil => intro content1 content2 _ _; exact ⟨none, rfl⟩
  | cons candidate rest ih =>
    intro content1 content2 h1 h2
    rw [_try_candidates_large]
    split
    · exact ih content1 content2 h1 h2
    · have hsome1 : ∃ t, (if candidate.localdatapart1.format = some "binary"
          then _decimal2bits content1 32 else some content1) = some t
          ∧ allDigits1 t.data = true := by
        split
        · exact decimal2bits_digits content1 32 h1
        · exact ⟨content1, rfl, h1⟩
      obtain ⟨t1, ht1, ht1d⟩ := hsome1
      have hsome2 : ∃ t, (if candidate.localdatapart2.format = some "binary"
          then _decimal2bits content2 32 else some content2) = some t
          ∧ allDigits1 t.data = true := by
        split
        · exact decimal2bits_digits content2 32 h2
        · exact ⟨content2, rfl, h2⟩
      obtain ⟨t2, ht2, ht2d⟩ := hsome2
      simp only [ht1, ht2]
      split
      · exact ⟨some candidate, rfl⟩
      · exact ih t1 t2 ht1d ht2d

theorem extContentString_some (candidate : ExtendedCand) (content : String)
    (hc : allDigits1 content.data = true) :
    ∃ t, extContentString candidate content = some t := by
  unfold extContentString
  split
  · split
    · obtain ⟨t, ht, _⟩ := decimal2bits_digits content 16 hc; exact ⟨t, ht⟩
    · obtain ⟨t, ht, _⟩ := decimal2bits_digits content 32 hc; exact ⟨t, ht⟩
  · exact ⟨content, rfl⟩

theorem try_extended_ok (extype exsubtype asn content : String)
    (cands : List ExtendedCand)
    (h1 : (pyIntHex? extype).isSome = true)
    (h2 : (pyIntHex? exsubtype).isSome = true)
    (hc : allDigits1 content.data = true) :
    ∃ r, _try_candidates_extended extype exsubtype asn content cands = .ok r := by
  induction cands with
  | nil => exact ⟨none, rfl⟩
  | cons candidate rest ih =>
    rw [_try_candidates_extended]
    obtain ⟨tv, htv⟩ := Option.isSome_iff_exists.mp h1
    simp only [htv]
    split
    · exact ih
    · obtain ⟨sv, hsv⟩ := Option.isSome_iff_exists.mp h2
      simp only [hsv]
      split
      · exact ih
      · rcases hadm : extAdminOk asn candidate with _ | b
        · simp only [hadm]; exact ih
        · rcases b with _ | _
          · simp only [hadm]; exact ih
          · obtain ⟨t, ht⟩ := extContentString_some candidate content hc
            simp only [hadm, ht]
            split
            · exact ⟨some candidate, rfl⟩
            · exact ih

theorem extractFields_length (cb : List Char) (fs : List FieldSpec) :
    ∀ pos, (extractFields cb pos fs).length = fs.length := by
  induction fs with
  | nil => intro pos; rfl
  | cons f fs ih => intro pos; simp [extractFields, ih]

theorem candidate2fields_ok (content : String) (la : LocalPart)
    (h : allDigits1 content.data = true) :
    ∃ vals, _candidate2fields content la = some vals
      ∧ vals.length = la.fields.length := by
  unfold _candidate2fields
  have hsome : ∃ cb, (if la.format = some "binary"
      then _decimal2bits content 16 else some content) = some cb := by
    split
    · obtain ⟨t, ht, _⟩ := decimal2bits_digits content 16 h; exact ⟨t, ht⟩
    · exact ⟨content, rfl⟩
  obtain ⟨cb, hcb⟩ := hsome
  rw [hcb]
  exact ⟨_, rfl, extractFields_length _ _ _⟩

theorem candidate2fields_large_ok (content1 content2 : String)
    (p1 p2 : LocalPart)
    (h1 : allDigits1 content1.data = true) (h2 : allDigits1 content2.data = true) :
    ∃ v1 v2, _candidate2fields_large content1 content2 p1 p2 = some (v1, v2)
      ∧ v1.length = p1.fields.length ∧ v2.length = p2.fields.length := by
  unfold _candidate2fields_large
  have hsome1 : ∃ cb, (if p1.format = some "binary"
      then _decimal2bits content1 32 else some content1) = some cb := by
    split
    · obtain ⟨t, ht, _⟩ := decimal2bits_digits content1 32 h1; exact ⟨t, ht⟩
    · exact ⟨content1, rfl⟩
  obtain ⟨cb1, hcb1⟩ := hsome1
  rw [hcb1]
  have hsome2 : ∃ cb, (if p2.format = some "binary"
      then _decimal2bits content2 32 else some content2) = some cb := by
    split
    · obtain ⟨t, ht, _⟩ := decimal2bits_digits content2 32 h2; exact ⟨t, ht⟩
    · exact ⟨content2, rfl⟩
  obtain ⟨cb2, hcb2⟩ := hsome2
  rw [hcb2]
  exact ⟨_, _, rfl, extractFields_length _ _ _, extractFields_length _ _ _⟩

theorem renderFields_ok : ∀ (fs : List FieldSpec) (vals : List String),
    vals.length = fs.length → ∃ r, renderFields fs vals = some r := by
  intro fs
  induction fs with
  | nil => intro vals _; exact ⟨[], rfl⟩
  | cons f fs ih =>
    intro vals h
    rcases vals with _ | ⟨v, vs⟩
    · simp at h
    · obtain ⟨r, hr⟩ := ih vs (by simpa using h)
      refine ⟨(match f.description with
        | some d => f.name ++ "=" ++ d
        | none => f.name ++ "=" ++ v) :: r, ?_⟩
      simp [renderFields, hr]

theorem print_regular_ok (c : RegularCand) (vals : List String)
    (h : vals.length = c.localadmin.fields.length) :
    ∃ out, _print_match_regular c vals = some out := by
  obtain ⟨r, hr⟩ := renderFields_ok _ _ h
  refine ⟨natToDecString c.globaladmin ++ ":" ++ String.intercalate "," r, ?_⟩
  simp [_print_match_regular, hr]

theorem print_extended_ok (c : ExtendedCand) (vals : List String)
    (h : vals.length = c.localadmin.fields.length)
    (hadm : c.asn.isSome = true ∨ c.asn4.isSome = true) :
    ∃ out, _print_match_extended c vals = some out := by
  obtain ⟨r, hr⟩ := renderFields_ok _ _ h
  unfold _print_match_extended
  rcases h4 : c.asn4 with _ | a4
  · rcases ha : c.asn with _ | a
    · rw [h4, ha] at hadm; simp at hadm
    · simp [ha, hr]
  · simp [hr]

theorem print_large_ok (c : LargeCand) (v1 v2 : List String)
    (h1 : v1.length = c.localdatapart1.fields.length)
    (h2 : v2.length = c.localdatapart2.fields.length) :
    ∃ out, _print_match_large c v1 v2 = some out := by
  obtain ⟨r1, hr1⟩ := renderFields_ok _ _ h1
  obtain ⟨r2, hr2⟩ := renderFields_ok _ _ h2
  refine ⟨natToDecString c.globaladmin ++ ":"
    ++ String.intercalate "," r1 ++ ":" ++ String.intercalate "," r2, ?_⟩
  simp [_print_match_large, hr1, hr2]

theorem try_extended_admin (extype exsubtype asn content : String)
    (cands : List ExtendedCand) :
    ∀ c : ExtendedCand,
      _try_candidates_extended extype exsubtype asn content cands = .ok (some c) →
      c.asn.isSome = true ∨ c.asn4.isSome = true := by
  induction cands with
  | nil => intro c h; simp [_try_candidates_extended] at h
  | cons candidate rest ih =>
    intro c h
    rw [_try_candidates_extended] at h
    rcases hx : pyIntHex? extype with _ | tv
    · simp only [hx] at h; exact Except.noConfusion h
    · simp only [hx] at h
      split at h
      · exact ih c h
      · rcases hy : pyIntHex? exsubtype with _ | sv
        · simp only [hy] at h; exact Except.noConfusion h
        · simp only [hy] at h
          split at h
          · exact ih c h
          · rcases hadm : extAdminOk asn candidate with _ | b
            · simp only [hadm] at h; exact ih c h
            · rcases b with _ | _
              · simp only [hadm] at h; exact ih c h
              · simp only [hadm] at h
                rcases hct : extContentString candidate content with _ | t
                · simp only [hct] at h; exact Except.noConfusion h
                · simp only [hct] at h
                  split at h
                  · have hc : candidate = c := by
                      simpa using h
                    subst hc
                    unfold extAdminOk at hadm
                    rcases ha : candidate.asn with _ | a
                    · rw [ha] at hadm
                      rcases ha4 : candidate.asn4 with _ | a4
                      · rw [ha4] at hadm; simp at hadm
                      · right; simp [ha4]
                    · left; simp [ha]
                  · exact ih c h

theorem parse_regular_ok (p : BGPCommunityParser) (s : String)
    (h : reRegularShape s = true) :
    ∃ r, parse_regular_community p s = .ok r := by
  unfold reRegularShape at h
  rcases hp : splitChars s.data with _ | ⟨a, _ | ⟨b, _ | ⟨c, r⟩⟩⟩ <;>
    simp only [hp, Bool.and_eq_true] at h <;> try exact Bool.noConfusion h
  obtain ⟨ha, hb⟩ := h
  have hps : pySplit s 1 = [String.mk a, String.mk b] := by
    rw [pySplit_of_le s 1 (by rw [hp]; simp), hp]; rfl
  unfold parse_regular_community
  simp only [hps]
  obtain ⟨res, hres⟩ := try_regular_ok (String.mk a) p.comm_regular (String.mk b) hb
  rcases res with _ | found
  · simp only [hres]
    exact ⟨none, rfl⟩
  · simp only [hres]
    obtain ⟨vals, hvals, hlen⟩ := candidate2fields_ok (String.mk b) found.localadmin hb
    simp only [hvals]
    obtain ⟨out, hout⟩ := print_regular_ok found vals hlen
    simp only [hout]
    exact ⟨some out, rfl⟩

theorem parse_large_ok (p : BGPCommunityParser) (s : String)
    (h : reLargeShape s = true) :
    ∃ r, parse_large_community p s = .ok r := by
  unfold reLargeShape at h
  rcases hp : splitChars s.data with _ | ⟨a, _ | ⟨b, _ | ⟨c, _ | ⟨d, r⟩⟩⟩⟩ <;>
    simp only [hp, Bool.and_eq_true] at h <;> try exact Bool.noConfusion h
  obtain ⟨⟨ha, hb⟩, hc⟩ := h
  have hps : pySplit s 2 = [String.mk a, String.mk b, String.mk c] := by
    rw [pySplit_of_le s 2 (by rw [hp]; simp), hp]; rfl
  unfold parse_large_community
  simp only [hps]
  obtain ⟨res, hres⟩ :=
    try_large_ok (String.mk a) p.comm_large (String.mk b) (String.mk c) hb hc
  rcases res with _ | found
  · simp only [hres]
    exact ⟨none, rfl⟩
  · simp only [hres]
    obtain ⟨v1, v2, hv, hl1, hl2⟩ := candidate2fields_large_ok
      (String.mk b) (String.mk c) found.localdatapart1 found.localdatapart2 hb hc
    simp only [hv]
    obtain ⟨out, hout⟩ := print_large_ok found v1 v2 hl1 hl2
    simp only [hout]
    exact ⟨some out, rfl⟩

theorem parse_extended_ok (p : BGPCommunityParser) (s : String)
    (h : reExtendedShape s = true) :
    ∃ r, parse_extended_community p s = .ok r := by
  unfold reExtendedShape at h
  rcases hp : splitChars s.data with _ | ⟨t, _ | ⟨st, _ | ⟨a, _ | ⟨c, _ | ⟨e, r⟩⟩⟩⟩⟩ <;>
    simp only [hp, Bool.and_eq_true] at h <;> try exact Bool.noConfusion h
  obtain ⟨⟨⟨ht, hst⟩, ha⟩, hc⟩ := h
  have hps : pySplit s 3 = [String.mk t, String.mk st, String.mk a, String.mk c] := by
    rw [pySplit_of_le s 3 (by rw [hp]; simp), hp]; rfl
  unfold parse_extended_community
  simp only [hps]
  obtain ⟨res, hres⟩ := try_extended_ok (String.mk t) (String.mk st)
    (String.mk a) (String.mk c) p.comm_extended
    (hexOctet_parse t ht) (hexOctet_parse st hst) hc
  rcases res with _ | found
  · simp only [hres]
    exact ⟨none, rfl⟩
  · simp only [hres]
    obtain ⟨vals, hvals, hlen⟩ := candidate2fields_ok (String.mk c) found.localadmin hc
    simp only [hvals]
    have hadm := try_extended_admin (String.mk t) (String.mk st)
      (String.mk a) (String.mk c) p.comm_extended found hres
    obtain ⟨out, hout⟩ := print_extended_ok found vals hlen hadm
    simp only [hout]
    exact ⟨some out, rfl⟩

/-! ## Claim theorems -/

/-- Claim C1, counterexample.  The claim says the binary-transform width
for an extended candidate is 16 when `asn` is declared and 32 when
`asn4` is declared.  The code does the opposite: `candAsn4Bin` declares
`asn4` and its only field accepts exactly the WIDTH-16 binary string of
5, yet it is selected for content `5`; `candAsnBin` declares `asn` and
its only field accepts exactly the WIDTH-32 binary string of 5, and it
too is selected. -/
theorem c1_counterexample :
    _try_candidates_extended "0x02" "0x02" "1" "5" [candAsn4Bin]
      = .ok (some candAsn4Bin)
    ∧ _try_candidates_extended "0x02" "0x02" "1" "5" [candAsnBin]
      = .ok (some candAsnBin) := by
  constructor <;> rfl

/-- Claim C1, amended.  For every extended candidate whose local admin
declares `format="binary"`, the content string handed to field matching
is the binary transform of width 16 when the candidate declares `asn4`
and of width 32 otherwise (in particular when it declares `asn`) —
the widths are swapped relative to the claim. -/
theorem c1_extended_binary_width (candidate : ExtendedCand) (content : String)
    (hfmt : candidate.localadmin.format = some "binary") :
    extContentString candidate content =
      _decimal2bits content (if candidate.asn4.isSome then 16 else 32) := by
  unfold extContentString
  rw [if_pos hfmt]
  cases h : candidate.asn4.isSome <;> simp [h]

/-- Claim C1, witness for the amended theorem at a concrete candidate
with `asn4` declared and binary format. -/
theorem c1_extended_binary_width_witness :
    extContentString candAsn4Bin "5" = _decimal2bits "5" 16 :=
  c1_extended_binary_width candAsn4Bin "5" rfl

/-- Claim C2.  The regular selector reassigns its loop variable: after
the binary candidate `candBin9` (globaladmin 1) fails on `"1:5"`, the
plain candidate `candPlain5` is tested against the LEFTOVER transformed
string instead of the original `"5"`, so the registry `[candBin9,
candPlain5]` misses while `[candPlain5]` alone matches — refuting the
claim that a transform while testing one candidate does not affect
later candidates. -/
theorem c2_contamination :
    parse_regular_community parserBinThenPlain "1:5" = .ok none
    ∧ parse_regular_community parserPlain "1:5" = .ok (some "1:f=5") := by
  constructor <;> rfl

/-- Claim C3.  In field matching a field without `length` is tested
against the WHOLE content string, not the remaining segment: on content
`"05"` with fields `[length 1 pattern ^0$, pattern ^5$]` the code's
matcher fails (it tests `"05"` against `^5$`), while the matcher as the
specification words it (remaining segment `content[pos:]`) succeeds,
and extraction slices exactly the remaining segments `["0", "5"]`. -/
theorem c3_unlengthed_whole_content :
    _try_candidate_fields "05" [fLen1Zero, fRest5] = false
    ∧ matchFieldsRemainder "05".data 0 [fLen1Zero, fRest5] = true
    ∧ extractFields "05".data 0 [fLen1Zero, fRest5] = ["0", "5"] := by
  refine ⟨rfl, rfl, rfl⟩

/-- Claim C4.  Extraction does not reuse the segmentation that matched:
for the extended candidate `candAsnBin` (declares `asn`, binary format)
on `"0x02:0x02:1:5"`, matching tested the width-32 transform of the
content, but `_candidate2fields` re-transforms with its hard-coded
width 16, so the rendered field value `0000000000000101` is a string
the candidate's own field pattern rejects. -/
theorem c4_extraction_width_mismatch :
    parse_extended_community parserAsnBin "0x02:0x02:1:5"
      = .ok (some "1:f=0000000000000101")
    ∧ extContentString candAsnBin "5" = some "00000000000000000000000000000101"
    ∧ _candidate2fields "5" candAsnBin.localadmin = some ["0000000000000101"]
    ∧ _try_candidate_fields "0000000000000101" candAsnBin.localadmin.fields = false := by
  refine ⟨rfl, rfl, rfl, rfl⟩

/-- Claim C5, counterexample.  The extended classification regex is
`^0x\d\d:0x\d\d:\d+:\d+$`, not `^0x[0-9A-Fa-f]{2}:...`: the input
`"0xAB:0x01:1:2"` is NOT dispatched (parse_community returns the
no-match sentinel) even though the registry's extended candidate would
match it if the extended parser were reached. -/
theorem c5_counterexample :
    parse_community parserHexType "0xAB:0x01:1:2" = .ok none
    ∧ parse_extended_community parserHexType "0xAB:0x01:1:2" = .ok (some "1:f=2") := by
  constructor <;> rfl

/-- Claim C5, amended.  Classification dispatches by exactly the three
shapes `^\d+:\d+$` (Regular), `^\d+:\d+:\d+$` (Large) and
`^0x\d\d:0x\d\d:\d+:\d+$` (Extended, decimal digits only in the two
octet groups); the three shapes are mutually exclusive, and every other
string yields the no-match sentinel. -/
theorem c5_classification_shapes (p : BGPCommunityParser) (s : String) :
    parse_community p s =
      (if reRegularShape s then parse_regular_community p s
       else if reLargeShape s then parse_large_community p s
       else if reExtendedShape s then parse_extended_community p s
       else .ok none)
    ∧ (reRegularShape s && reLargeShape s) = false
    ∧ (reRegularShape s && reExtendedShape s) = false
    ∧ (reLargeShape s && reExtendedShape s) = false := by
  refine ⟨rfl, ?_, ?_, ?_⟩
  · cases hr : reRegularShape s
    · rfl
    · cases hl : reLargeShape s
      · rfl
      · have h2 := reRegularShape_split s hr
        have h3 := reLargeShape_split s hl
        omega
  · cases hr : reRegularShape s
    · rfl
    · cases he : reExtendedShape s
      · rfl
      · have h2 := reRegularShape_split s hr
        have h3 := reExtendedShape_split s he
        omega
  · cases hl : reLargeShape s
    · rfl
    · cases he : reExtendedShape s
      · rfl
      · have h2 := reLargeShape_split s hl
        have h3 := reExtendedShape_split s he
        omega

/-- Claim C6.  An extended candidate that declares a 16-bit `asn` (and
no `asn4`) is never the selected candidate for an input whose
administrator numeral denotes a value of 32-bit size (at least 2^16):
the administrator gate compares the input string with `str(asn)`, whose
value is below 2^16, so the candidate is always skipped. -/
theorem c6_asn_skips_32bit_admin (extype exsubtype asnStr content : String)
    (cands : List ExtendedCand) (c : ExtendedCand) (a : Nat)
    (hasn : c.asn = some a) (hasn4 : c.asn4 = none)
    (h16 : a < 65536) (h32 : 65536 ≤ decStrToNat asnStr) :
    _try_candidates_extended extype exsubtype asnStr content cands
      ≠ .ok (some c) := by
  have hne : asnStr ≠ natToDecString a := by
    intro he
    rw [he, decStrToNat_natToDecString] at h32
    omega
  induction cands with
  | nil => intro h; simp [_try_candidates_extended] at h
  | cons candidate rest ih =>
    intro h
    rw [_try_candidates_extended] at h
    rcases hx : pyIntHex? extype with _ | tv
    · simp only [hx] at h; exact Except.noConfusion h
    · simp only [hx] at h
      split at h
      · exact ih h
      · rcases hy : pyIntHex? exsubtype with _ | sv
        · simp only [hy] at h; exact Except.noConfusion h
        · simp only [hy] at h
          split at h
          · exact ih h
          · rcases hadm : extAdminOk asnStr candidate with _ | b
            · simp only [hadm] at h; exact ih h
            · rcases b with _ | _
              · simp only [hadm] at h; exact ih h
              · simp only [hadm] at h
                rcases hct : extContentString candidate content with _ | t
                · simp only [hct] at h; exact Except.noConfusion h
                · simp only [hct] at h
                  split at h
                  · have hcand : candidate = c := by simpa using h
                    subst hcand
                    unfold extAdminOk at hadm
                    rw [hasn] at hadm
                    simp at hadm
                    exact hne hadm
                  · exact ih h

/-- Claim C6, witness: the candidate `candAsn16` (asn 65000) is not
selected for the administrator numeral `70000` even though type,
subtype and fields would accept. -/
theorem c6_asn_skips_32bit_admin_witness :
    _try_candidates_extended "0x00" "0x00" "70000" "1" [candAsn16]
      ≠ .ok (some candAsn16) :=
  c6_asn_skips_32bit_admin "0x00" "0x00" "70000" "1" [candAsn16] candAsn16
    65000 rfl rfl (by decide) (by decide)

/-- Claim C7.  On a decimal numeral string, `_decimal2bits` returns the
binary numeral of its value left-padded with `0` to the requested
width, of total length `max width (numeral length)` — so exactly the
width when the numeral fits and the full untruncated numeral when it
does not; in particular `decimal_to_bits("5", 8) = "00000101"` and
`decimal_to_bits("300", 8) = "100101100"`. -/
theorem c7_decimal2bits_pad (s : String) (w : Nat)
    (hs : allDigits1 s.data = true) :
    _decimal2bits s w =
      some (String.mk (List.replicate (w - (natToBin (decStrToNat s)).length) '0'
        ++ natToBin (decStrToNat s)))
    ∧ (List.replicate (w - (natToBin (decStrToNat s)).length) '0'
        ++ natToBin (decStrToNat s)).length
      = max w (natToBin (decStrToNat s)).length
    ∧ _decimal2bits "5" 8 = some "00000101"
    ∧ _decimal2bits "300" 8 = some "100101100" := by
  refine ⟨decimal2bits_some s w hs, ?_, rfl, rfl⟩
  have hpos := natToBin_length_pos (decStrToNat s)
  simp only [List.length_append, List.length_replicate]
  omega

/-- Claim C7, witness at the concrete numeral `"300"` and width 8. -/
theorem c7_decimal2bits_pad_witness :
    _decimal2bits "300" 8 = some "100101100" :=
  (c7_decimal2bits_pad "300" 8 (by decide)).2.2.2

/-- Claim C8.  Loading the same document twice appends duplicate
candidates, but parsing is NOT unaffected: with the single regular
binary candidate of `docDouble`, the once-loaded registry returns the
no-match sentinel for `"1:5"` while the twice-loaded registry selects
the duplicate (the content leftover from the first copy's binary
transform is transformed again and then matches). -/
theorem c8_double_load :
    (load_source (load_source emptyParser docDouble) docDouble).comm_regular
      = docDouble.regular ++ docDouble.regular
    ∧ parse_community (load_source emptyParser docDouble) "1:5" = .ok none
    ∧ parse_community (load_source (load_source emptyParser docDouble) docDouble)
        "1:5" = .ok (some "1:f=0000000000000101") := by
  refine ⟨rfl, rfl, rfl⟩

/-- Claim C9.  For every registry and every input string,
`parse_community` returns normally — a rendered string or the no-match
sentinel — and never raises: unrecognized shapes return the sentinel
directly, and for the three recognized shapes every partial operation
in the pipeline (splits, int conversions, extraction, rendering)
succeeds. -/
theorem c9_parse_never_raises (p : BGPCommunityParser) (s : String) :
    isOkE (parse_community p s) = true := by
  unfold parse_community
  by_cases h1 : reRegularShape s = true
  · obtain ⟨r, hr⟩ := parse_regular_ok p s h1
    simp [h1, hr, isOkE]
  · rw [Bool.not_eq_true] at h1
    by_cases h2 : reLargeShape s = true
    · obtain ⟨r, hr⟩ := parse_large_ok p s h2
      simp [h1, h2, hr, isOkE]
    · rw [Bool.not_eq_true] at h2
      by_cases h3 : reExtendedShape s = true
      · obtain ⟨r, hr⟩ := parse_extended_ok p s h3
        simp [h1, h2, h3, hr, isOkE]
      · rw [Bool.not_eq_true] at h3
        simp [h1, h2, h3, isOkE]

/-- Claim C10.  Called directly, each kind-specific parser raises when
the input has fewer colons than its kind needs: `parse_regular_community`
on inputs with no colon, `parse_large_community` on inputs with fewer
than two, `parse_extended_community` on inputs with fewer than three —
the tuple unpacking of `split(":", maxsplit)` fails before any
matching. -/
theorem c10_short_input_raises (p : BGPCommunityParser) (s : String) :
    (s.data.count ':' = 0 → parse_regular_community p s = .error .valueError)
    ∧ (s.data.count ':' < 2 → parse_large_community p s = .error .valueError)
    ∧ (s.data.count ':' < 3 → parse_extended_community p s = .error .valueError) := by
  have hlen := splitChars_length s.data
  refine ⟨?_, ?_, ?_⟩
  · intro h
    rcases hp : splitChars s.data with _ | ⟨g, _ | ⟨g2, rest⟩⟩
    · exact absurd hp (splitChars_ne_nil _)
    · have hps : pySplit s 1 = [String.mk g] := by
        rw [pySplit_of_le s 1 (by rw [hp]; simp), hp]; rfl
      unfold parse_regular_community
      rw [hps]
    · rw [hp] at hlen
      simp only [List.length_cons] at hlen
      omega
  · intro h
    rcases hp : splitChars s.data with _ | ⟨g, _ | ⟨g2, _ | ⟨g3, rest⟩⟩⟩
    · exact absurd hp (splitChars_ne_nil _)
    · have hps : pySplit s 2 = [String.mk g] := by
        rw [pySplit_of_le s 2 (by rw [hp]; simp), hp]; rfl
      unfold parse_large_community
      rw [hps]
    · have hps : pySplit s 2 = [String.mk g, String.mk g2] := by
        rw [pySplit_of_le s 2 (by rw [hp]; simp), hp]; rfl
      unfold parse_large_community
      rw [hps]
    · rw [hp] at hlen
      simp only [List.length_cons] at hlen
      omega
  · intro h
    rcases hp : splitChars s.data with _ | ⟨g, _ | ⟨g2, _ | ⟨g3, _ | ⟨g4, rest⟩⟩⟩⟩
    · exact absurd hp (splitChars_ne_nil _)
    · have hps : pySplit s 3 = [String.mk g] := by
        rw [pySplit_of_le s 3 (by rw [hp]; simp), hp]; rfl
      unfold parse_extended_community
      rw [hps]
    · have hps : pySplit s 3 = [String.mk g, String.mk g2] := by
        rw [pySplit_of_le s 3 (by rw [hp]; simp), hp]; rfl
      unfold parse_extended_community
      rw [hps]
    · have hps : pySplit s 3 = [String.mk g, String.mk g2, String.mk g3] := by
        rw [pySplit_of_le s 3 (by rw [hp]; simp), hp]; rfl
      unfold parse_extended_community
      rw [hps]
    · rw [hp] at hlen
      simp only [List.length_cons] at hlen
      omega

/-- Claim C10, witness on the colon-free input `"nocolons"` with an
empty registry. -/
theorem c10_short_input_raises_witness :
    parse_regular_community emptyParser "nocolons" = .error .valueError
    ∧ parse_large_community emptyParser "nocolons" = .error .valueError
    ∧ parse_extended_community emptyParser "nocolons" = .error .valueError :=
  ⟨(c10_short_input_raises emptyParser "nocolons").1 (by decide),
   (c10_short_input_raises emptyParser "nocolons").2.1 (by decide),
   (c10_short_input_raises emptyParser "nocolons").2.2 (by decide)⟩

end CommParser
